import Mathlib

/-!
Verification of the DCA signal-fusion and cell-population core of the
RPi sink node repository, shallowly embedded in Lean 4.

Two near-duplicate pipeline variants are modelled:

* `Etb` — the ETB-experiment script (`centralized_dca_analysis-etb_exp.py`):
  capped additive danger, sliding-window standard-deviation safe signal,
  one cumulative `context` accumulator per dendritic cell, population bound
  `DC_N = 5` enforced by append-then-pop, and a majority vote over the live
  population (`count of cells with context ≥ 0` over the population size).

* `Wsn` — the WSN-testbed script (`centralized_dca_analysis.py`):
  PAMP from the reset fault indicator plus a sequence-number gap flag,
  delta-based safe signal built on `get_delta`, and two retirement-based
  decision rules (dDCA with a `(csm, k)` pair, classic DCA with a
  `(csm, semi, mat)` triple).  A cell retires and votes when the
  population length exceeds the hard-coded threshold `4`.

Floating-point values are modelled as exact rationals; the dendritic-cell
update and context-assignment stages are functions of the per-record fused
signals, exactly as in the source, so every claim about those stages is
stated over arbitrary signal streams.
-/

namespace RPiSink

namespace Etb

/-- Dendritic cell population capacity, `DC_N = 5` in the ETB script. -/
def DC_N : Nat := 5

/-- Number of sensor values kept for the std-dev windows, `STDDEV_N = 10`. -/
def STDDEV_N : Nat := 10

/-- One sliding-window push: the value is appended and, when the length then
exceeds the capacity `N`, the oldest entry (`pop(0)`) is removed. -/
def wpush (N : Nat) (w : List ℚ) (v : ℚ) : List ℚ :=
  if N < (w ++ [v]).length then (w ++ [v]).drop 1 else w ++ [v]

/-- Folding a sequence of pushes into a window. -/
def wpushAll (N : Nat) (w : List ℚ) (vs : List ℚ) : List ℚ :=
  vs.foldl (wpush N) w

/-- The running mean computed in the safe-signal block: the window sum divided
by the current window length. -/
def safeMu (w : List ℚ) : ℚ := w.sum / (w.length : ℚ)

/-- The population variance computed in the safe-signal block (the value whose
square root feeds the exponential): divided by the current window length. -/
def safeDev2 (w : List ℚ) : ℚ :=
  ((w.map (fun v => (v - safeMu w) ^ 2)).sum) / (w.length : ℚ)

/-- The additive-capped danger signal of the ETB script:
`min(1, x_nt + x_vs + x_bat + x_art + x_rst + x_ic + x_adc + x_usart)`. -/
def danger_etb (x_nt x_vs x_bat x_art x_rst x_ic x_adc x_usart : ℚ) : ℚ :=
  min 1 (x_nt + x_vs + x_bat + x_art + x_rst + x_ic + x_adc + x_usart)

/-- The fused signals of one accepted record, as consumed by the dendritic
cell update (step 3) of the ETB script. -/
structure Fused where
  antigen : String
  danger : ℚ
  safe : ℚ
deriving Repr, Inhabited

/-- `context_t = danger_t - safe_t`, the per-tick accumulator increment. -/
def tickDelta (f : Fused) : ℚ := f.danger - f.safe

/-- A dendritic cell of the ETB script: antigen plus one cumulative
`context` accumulator. -/
structure DCell where
  antigen : String
  context : ℚ
deriving Repr

/-- The first half of step 3 of the ETB script: add `danger - safe` to every
live cell and append a new cell seeded with it. -/
def dcGrow (dcs : List DCell) (f : Fused) : List DCell :=
  (dcs.map fun dc => (⟨dc.antigen, dc.context + tickDelta f⟩ : DCell)) ++
    [(⟨f.antigen, tickDelta f⟩ : DCell)]

/-- Step 3 of the ETB script: add `danger - safe` to every live cell, append a
new cell seeded with it, and pop the oldest cell when the population exceeds
`DC_N`. -/
def dcStep (dcs : List DCell) (f : Fused) : List DCell :=
  if DC_N < (dcGrow dcs f).length then (dcGrow dcs f).drop 1 else dcGrow dcs f

/-- Step 4 of the ETB script, counting part: the number of live cells whose
accumulated `context` is `≥ 0`. -/
def voteState (dcs : List DCell) : Nat :=
  (dcs.filter fun dc => decide (0 ≤ dc.context)).length

/-- Step 4 of the ETB script, emitted value: `state / len(dcs)`. -/
def voteContext (dcs : List DCell) : ℚ :=
  (voteState dcs : ℚ) / (dcs.length : ℚ)

/-- The cell population after feeding a list of fused records through step 3,
starting from the empty population. -/
def etbDcs (ticks : List Fused) : List DCell :=
  ticks.foldl dcStep []

/-- One full record step of the ETB pipeline: update the population, then
append the majority-vote context to the output list. -/
def etbStep (st : List DCell × List ℚ) (f : Fused) : List DCell × List ℚ :=
  (dcStep st.1 f, st.2 ++ [voteContext (dcStep st.1 f)])

/-- The per-record context outputs of the ETB pipeline. -/
def etbOuts (ticks : List Fused) : List ℚ :=
  (ticks.foldl etbStep ([], [])).2

/-- Spec-side rendering of the majority-vote context of claim C1: the cells
live after record `t` were created at records `t + 1 - pop, …, t` where
`pop = min (t+1) DC_N`; a cell created at `j` has accumulated
`danger - safe` of records `j, …, t`; the emitted context is the count of
live cells with a nonnegative accumulator divided by the population size. -/
def specMajorityContext (ticks : List Fused) (t : Nat) : ℚ :=
  ((List.countP
      (fun j => decide (0 ≤ (((ticks.map tickDelta).take (t + 1)).drop j).sum))
      (List.range' (t + 1 - min (t + 1) DC_N) (min (t + 1) DC_N))) : ℚ) /
    ((min (t + 1) DC_N : Nat) : ℚ)

/-- Scenario A of the spec: six records whose fused signals are
`danger = 0`, `safe = 0` on every tick. -/
def scenarioA : List Fused :=
  [⟨"SN", 0, 0⟩, ⟨"SN", 0, 0⟩, ⟨"SN", 0, 0⟩, ⟨"SN", 0, 0⟩, ⟨"SN", 0, 0⟩,
   ⟨"SN", 0, 0⟩]

/-- The creation-indexed cell contents used to characterise the population:
the cell created at record `j` carries the antigen of record `j` and the sum
of `danger - safe` from record `j` to the last processed record. -/
def cellAt (ticks : List Fused) (j : Nat) : DCell :=
  ⟨(ticks.getD j default).antigen, ((ticks.map tickDelta).drop j).sum⟩

end Etb

namespace Wsn

/-- The `DC_N` constant of the WSN script (`DC_N = 5`); the retirement check
itself uses the hard-coded threshold `4`. -/
def DC_N : Nat := 5

/-- PAMP indicator weight for the reset fault indicator (`pamp1_w = 1`). -/
def pamp1_w : ℚ := 1

/-- PAMP indicator weight for the sequence-gap flag (`pamp2_w = 1`). -/
def pamp2_w : ℚ := 1

/-- Safe indicator weight 1 (`safe1_w = 1`). -/
def safe1_w : ℚ := 1

/-- Safe indicator weight 2 (`safe2_w = 1`). -/
def safe2_w : ℚ := 1

/-- Safe indicator weight 3 (`safe3_w = 1`). -/
def safe3_w : ℚ := 1

/-- Safe indicator weight 4 (`safe4_w = 1`). -/
def safe4_w : ℚ := 1

/-- DCA weight of PAMP in `csm` (`pamp_w_csm = 1`). -/
def pamp_w_csm : ℚ := 1

/-- DCA weight of danger in `csm` (`danger_w_csm = 1`). -/
def danger_w_csm : ℚ := 1

/-- DCA weight of safe in `csm` (`safe_w_csm = 2`). -/
def safe_w_csm : ℚ := 2

/-- DCA weight of PAMP in `semi` (`pamp_w_semi = 0`). -/
def pamp_w_semi : ℚ := 0

/-- DCA weight of danger in `semi` (`danger_w_semi = 0`). -/
def danger_w_semi : ℚ := 0

/-- DCA weight of safe in `semi` (`safe_w_semi = 3`). -/
def safe_w_semi : ℚ := 3

/-- DCA weight of PAMP in `mat` (`pamp_w_mat = 2`). -/
def pamp_w_mat : ℚ := 2

/-- DCA weight of danger in `mat` (`danger_w_mat = 1`). -/
def danger_w_mat : ℚ := 1

/-- DCA weight of safe in `mat` (`safe_w_mat = -3`). -/
def safe_w_mat : ℚ := -3

/-- `get_delta` exactly as written in the WSN script: it returns `0` when its
two arguments are equal, and otherwise `|t_air[i] - t_air[i-1]|` — the
*global* air-temperature values at the current and previous record, not its
arguments (the `delta = delta / base` scaling line is commented out in the
source, and `base` is computed but never used). -/
def get_delta (v1 v2 tair_i tair_prev : ℚ) : ℚ :=
  if v1 = v2 then 0 else |tair_i - tair_prev|

/-- Spec-side relative delta as claim C5 words it: `0` when the two values
are equal, `0` when the current value is `0` (division-by-zero guard), and
otherwise `|current - previous| / |current|`; it depends only on its two
arguments. -/
def relative_delta (cur prev : ℚ) : ℚ :=
  if cur = prev then 0 else if cur = 0 then 0 else |cur - prev| / |cur|

/-- One accepted record of the WSN script, as the signal stage consumes it. -/
structure Rec where
  sntime : ℤ
  t_air : ℚ
  t_soil : ℚ
  h_air : ℚ
  h_soil : ℚ
  x_nt : ℚ
  x_vs : ℚ
  x_bat : ℚ
  x_art : ℚ
  x_rst : ℚ
  x_ic : ℚ
  x_adc : ℚ
  x_usart : ℚ
deriving Repr, Inhabited

/-- The sequence-gap PAMP component: `0` on the first record (`i = 0`),
otherwise `1 * pamp2_w` when the message counters of the current and previous
record do not differ by exactly `1`, else `0`. -/
def pamp2Of (r : Rec) (prev : Option Rec) : ℚ :=
  match prev with
  | none => 0
  | some p => if r.sntime - p.sntime ≠ 1 then 1 * pamp2_w else 0

/-- The emitted PAMP value: `x_rst * pamp1_w + pamp2`, with `pamp2` the gap
component.  The reset component is computed on every record, including the
first. -/
def pampOf (r : Rec) (prev : Option Rec) : ℚ :=
  r.x_rst * pamp1_w + pamp2Of r prev

/-- The emitted delta-based safe value: `0` on the first record, otherwise
one minus the weighted sum of the four `get_delta` values divided by the sum
of the absolute safe weights.  Each `get_delta` call receives the current and
previous values of its quantity, and — as in the source — reads the global
current and previous `t_air` values internally. -/
def safeOf (r : Rec) (prev : Option Rec) : ℚ :=
  match prev with
  | none => 0
  | some p =>
      1 - (get_delta r.t_air p.t_air r.t_air p.t_air * safe1_w
         + get_delta r.t_soil p.t_soil r.t_air p.t_air * safe2_w
         + get_delta r.h_air p.h_air r.t_air p.t_air * safe3_w
         + get_delta r.h_soil p.h_soil r.t_air p.t_air * safe4_w)
        / (|safe1_w| + |safe2_w| + |safe3_w| + |safe4_w|)

/-- The fused signals of one record, as consumed by the dendritic-cell stage
of the WSN script. -/
structure Sig where
  antigen : String
  pamp : ℚ
  danger : ℚ
  safe : ℚ
deriving Repr, Inhabited

/-- dDCA per-tick `csm` increment: `safe + (danger + 2*pamp)`. -/
def csmDelta (s : Sig) : ℚ := s.safe + (s.danger + 2 * s.pamp)

/-- dDCA per-tick `k` increment: `(danger + 2*pamp) - 2*safe`. -/
def kDelta (s : Sig) : ℚ := (s.danger + 2 * s.pamp) - 2 * s.safe

/-- A dDCA dendritic cell: antigen plus the cumulative `(csm, k)` pair. -/
structure DDCell where
  antigen : String
  csm : ℚ
  k : ℚ
deriving Repr

/-- dDCA step 3: add the increments to every live cell and append a new cell
seeded with them. -/
def ddcaCellStep (dcs : List DDCell) (s : Sig) : List DDCell :=
  (dcs.map fun dc => ⟨dc.antigen, dc.csm + csmDelta s, dc.k + kDelta s⟩) ++
    [(⟨s.antigen, csmDelta s, kDelta s⟩ : DDCell)]

/-- dDCA step 4: when the population length exceeds `4`, pop the oldest cell
and emit `1` if its `k` is positive, else `0`; otherwise emit `0` and leave
the population unchanged. -/
def ddcaEmit (dcs : List DDCell) : List DDCell × ℚ :=
  if 4 < dcs.length then
    (dcs.drop 1,
      match dcs with
      | [] => 0
      | dc :: _ => if 0 < dc.k then 1 else 0)
  else (dcs, 0)

/-- One full dDCA record step: population update followed by context
assignment. -/
def ddcaStep (st : List DDCell × List ℚ) (s : Sig) : List DDCell × List ℚ :=
  ((ddcaEmit (ddcaCellStep st.1 s)).1,
    st.2 ++ [(ddcaEmit (ddcaCellStep st.1 s)).2])

/-- The dDCA population after a list of records. -/
def ddcaDcs (sigs : List Sig) : List DDCell :=
  (sigs.foldl ddcaStep ([], [])).1

/-- The dDCA per-record context outputs. -/
def ddcaOuts (sigs : List Sig) : List ℚ :=
  (sigs.foldl ddcaStep ([], [])).2

/-- The creation-indexed dDCA cell contents: the cell created at record `j`
carries the antigen of record `j` and the sums of the `csm` and `k`
increments from record `j` to the last processed record. -/
def dcellAt (sigs : List Sig) (j : Nat) : DDCell :=
  ⟨(sigs.getD j default).antigen,
    ((sigs.map csmDelta).drop j).sum,
    ((sigs.map kDelta).drop j).sum⟩

/-- The context value the dDCA emits for record `t` (0-indexed), as claim C2
words it: `0` before any cell retires (`t < 4`), and afterwards the sign
test of the retiring cell's `k`, accumulated over records `t-4, …, t`
inclusive. -/
def ddcaEmitVal (sigs : List Sig) (t : Nat) : ℚ :=
  if t < 4 then 0
  else if 0 < (((sigs.map kDelta).take (t + 1)).drop (t - 4)).sum then 1
  else 0

/-- Scenario B of the spec: five records whose fused signals are
`danger = 1`, `safe = 0`, `pamp = 0` on every tick. -/
def scenarioB : List Sig :=
  [⟨"SN", 0, 1, 0⟩, ⟨"SN", 0, 1, 0⟩, ⟨"SN", 0, 1, 0⟩, ⟨"SN", 0, 1, 0⟩,
   ⟨"SN", 0, 1, 0⟩]

/-- Classic-DCA per-tick `csm` increment: the weighted `(pamp, safe, danger)`
combination normalised by the sum of the absolute `csm` weights. -/
def csmMDelta (s : Sig) : ℚ :=
  (s.pamp * pamp_w_csm + s.safe * safe_w_csm + s.danger * danger_w_csm) /
    (|pamp_w_csm| + |safe_w_csm| + |danger_w_csm|)

/-- Classic-DCA per-tick `semi` increment, normalised by the `semi`
weights. -/
def semiDelta (s : Sig) : ℚ :=
  (s.pamp * pamp_w_semi + s.safe * safe_w_semi + s.danger * danger_w_semi) /
    (|pamp_w_semi| + |safe_w_semi| + |danger_w_semi|)

/-- Classic-DCA per-tick `mat` increment, normalised by the `mat` weights. -/
def matDelta (s : Sig) : ℚ :=
  (s.pamp * pamp_w_mat + s.safe * safe_w_mat + s.danger * danger_w_mat) /
    (|pamp_w_mat| + |safe_w_mat| + |danger_w_mat|)

/-- A classic-DCA dendritic cell: antigen plus the cumulative
`(csm, semi, mat)` triple. -/
structure MCell where
  antigen : String
  csm : ℚ
  semi : ℚ
  mat : ℚ
deriving Repr

/-- Classic-DCA step 3: add the increments to every live cell and append a
new cell seeded with them. -/
def dcaCellStep (dcs : List MCell) (s : Sig) : List MCell :=
  (dcs.map fun dc =>
      ⟨dc.antigen, dc.csm + csmMDelta s, dc.semi + semiDelta s,
        dc.mat + matDelta s⟩) ++
    [(⟨s.antigen, csmMDelta s, semiDelta s, matDelta s⟩ : MCell)]

/-- Classic-DCA step 4: when the population length exceeds `4`, pop the
oldest cell and emit `1` if its `mat` exceeds its `semi`, else `0`;
otherwise emit `0`. -/
def dcaEmit (dcs : List MCell) : List MCell × ℚ :=
  if 4 < dcs.length then
    (dcs.drop 1,
      match dcs with
      | [] => 0
      | dc :: _ => if dc.semi < dc.mat then 1 else 0)
  else (dcs, 0)

/-- One full classic-DCA record step. -/
def dcaStep (st : List MCell × List ℚ) (s : Sig) : List MCell × List ℚ :=
  ((dcaEmit (dcaCellStep st.1 s)).1,
    st.2 ++ [(dcaEmit (dcaCellStep st.1 s)).2])

/-- The classic-DCA population after a list of records. -/
def dcaDcs (sigs : List Sig) : List MCell :=
  (sigs.foldl dcaStep ([], [])).1

/-- The classic-DCA per-record context outputs. -/
def dcaOuts (sigs : List Sig) : List ℚ :=
  (sigs.foldl dcaStep ([], [])).2

/-- The population component of one dDCA record step. -/
def ddcaPopStep (dcs : List DDCell) (s : Sig) : List DDCell :=
  (ddcaEmit (ddcaCellStep dcs s)).1

/-- The population component of one classic-DCA record step. -/
def dcaPopStep (dcs : List MCell) (s : Sig) : List MCell :=
  (dcaEmit (dcaCellStep dcs s)).1

/-- Six records fed to the dDCA population, used to exercise the population
bound with more records than `DC_N`. -/
def sixSigs : List Sig :=
  [⟨"SN", 0, 0, 0⟩, ⟨"SN", 0, 0, 0⟩, ⟨"SN", 0, 0, 0⟩, ⟨"SN", 0, 0, 0⟩,
   ⟨"SN", 0, 0, 0⟩, ⟨"SN", 0, 0, 0⟩]

/-- A first record whose reset fault indicator is `1` and whose other fields
are zero. -/
def recRst1 : Rec :=
  ⟨0, 0, 0, 0, 0, 0, 0, 0, 0, 1, 0, 0, 0⟩

/-- A record with all fields zero. -/
def recZero : Rec :=
  ⟨0, 0, 0, 0, 0, 0, 0, 0, 0, 0, 0, 0, 0⟩

/-- A successor record of `recZero` whose air temperature jumps to `8` and
whose other use-case readings move to `1`. -/
def recJump : Rec :=
  ⟨1, 8, 1, 1, 1, 0, 0, 0, 0, 0, 0, 0, 0⟩

end Wsn

/-! ### Generic bookkeeping for the append-then-pop population dynamics -/

/-- Stepping a population that currently holds the cells created at records
`n - m, …, n - 1` (with `m = min n cap`): after updating, appending the cell
of record `n` and popping the oldest cell when the bound `cap` is exceeded,
the population holds the cells created at records `n + 1 - m', …, n` with
`m' = min (n+1) cap`. -/
theorem window_step {α : Type} (f : ℕ → α) (n cap : ℕ) :
    (if cap < ((List.range' (n - min n cap) (min n cap)).map f ++ [f n]).length
      then ((List.range' (n - min n cap) (min n cap)).map f ++ [f n]).drop 1
      else (List.range' (n - min n cap) (min n cap)).map f ++ [f n])
      = (List.range' (n + 1 - min (n + 1) cap) (min (n + 1) cap)).map f := by
  have hlen : ((List.range' (n - min n cap) (min n cap)).map f ++ [f n]).length
      = min n cap + 1 := by
    simp
  by_cases h : cap < min n cap + 1
  · have hm : min n cap = cap := by omega
    have hcapn : cap ≤ n := by omega
    have harr : (List.range' (n - min n cap) (min n cap)).map f ++ [f n]
        = (List.range' (n - cap) (cap + 1)).map f := by
      rw [hm, List.range'_concat, List.map_append]
      have hx : n - cap + 1 * cap = n := by omega
      rw [hx]
      rfl
    rw [if_pos (by rw [hlen]; exact h), harr, List.range'_succ, List.map_cons,
      List.drop_succ_cons, List.drop_zero]
    have h1 : min (n + 1) cap = cap := by omega
    have h2 : n - cap + 1 = n + 1 - cap := by omega
    rw [h1, h2]
  · have hm : min n cap = n := by omega
    have hm1 : min (n + 1) cap = n + 1 := by omega
    rw [if_neg (by rw [hlen]; exact h), hm, hm1, Nat.sub_self, Nat.sub_self,
      List.range'_concat, List.map_append]
    have hx : 0 + 1 * n = n := by omega
    rw [hx]
    rfl

/-! ### Characterisation of the ETB population and outputs -/

namespace Etb

/-- Unfolding one snoc step of the population fold. -/
theorem etbDcs_snoc (xs : List Fused) (x : Fused) :
    etbDcs (xs ++ [x]) = dcStep (etbDcs xs) x := by
  simp [etbDcs, List.foldl_append]

/-- Growing the population of `xs` by the record `x` yields the
creation-indexed cells of `xs ++ [x]` for the old window plus the fresh
cell of record `xs.length`. -/
theorem dcGrow_char (xs : List Fused) (x : Fused)
    (ih : etbDcs xs =
      (List.range' (xs.length - min xs.length DC_N) (min xs.length DC_N)).map
        (cellAt xs)) :
    dcGrow (etbDcs xs) x
      = (List.range' (xs.length - min xs.length DC_N) (min xs.length DC_N)).map
          (cellAt (xs ++ [x])) ++ [cellAt (xs ++ [x]) xs.length] := by
  rw [dcGrow, ih, List.map_map]
  congr 1
  · refine List.map_congr_left ?_
    intro j hj
    have hj' : j < xs.length := by
      rcases List.mem_range'.mp hj with ⟨i, hi, rfl⟩
      have := Nat.min_le_left xs.length DC_N
      omega
    show (⟨(cellAt xs j).antigen, (cellAt xs j).context + tickDelta x⟩ : DCell)
        = cellAt (xs ++ [x]) j
    unfold cellAt
    have ha : (xs ++ [x]).getD j default = xs.getD j default :=
      List.getD_append _ _ _ _ hj'
    have hc : (((xs ++ [x]).map tickDelta).drop j).sum
        = ((xs.map tickDelta).drop j).sum + tickDelta x := by
      rw [List.map_append,
        List.drop_append_of_le_length (by simpa using le_of_lt hj'),
        List.sum_append]
      simp
    rw [ha, hc]
  · have ha : (xs ++ [x]).getD xs.length default = x := by
      rw [List.getD_append_right _ _ _ _ (le_refl _), Nat.sub_self]
      rfl
    have hc : (((xs ++ [x]).map tickDelta).drop xs.length).sum = tickDelta x := by
      rw [List.map_append,
        show xs.length = (xs.map tickDelta).length by simp,
        List.drop_left]
      simp
    unfold cellAt
    rw [ha, hc]

/-- The ETB population after any record list consists of the cells created by
the last `min n DC_N` records, each carrying the cumulative sum of
`danger - safe` from its creation record to the last record. -/
theorem etbDcs_char (ticks : List Fused) :
    etbDcs ticks
      = (List.range' (ticks.length - min ticks.length DC_N)
          (min ticks.length DC_N)).map (cellAt ticks) := by
  induction ticks using List.reverseRecOn with
  | nil => simp [etbDcs]
  | append_singleton xs x ih =>
    rw [etbDcs_snoc, dcStep, dcGrow_char xs x ih, window_step]
    have hl : (xs ++ [x]).length = xs.length + 1 := by simp
    rw [hl]

/-- The ETB population size is `min n DC_N` after `n` records. -/
theorem etbDcs_length (ticks : List Fused) :
    (etbDcs ticks).length = min ticks.length DC_N := by
  rw [etbDcs_char]
  simp

/-- The population component of the full pipeline fold agrees with the
population-only fold. -/
theorem etbFold_fst (ticks : List Fused) :
    ∀ st : List DCell × List ℚ,
      (ticks.foldl etbStep st).1 = ticks.foldl dcStep st.1 := by
  induction ticks with
  | nil => intro st; rfl
  | cons t ts ih =>
    intro st
    rw [List.foldl_cons, List.foldl_cons, ih]
    rfl

/-- One snoc step of the output list: the new record appends the vote taken
right after its population update. -/
theorem etbOuts_snoc (xs : List Fused) (x : Fused) :
    etbOuts (xs ++ [x]) = etbOuts xs ++ [voteContext (dcStep (etbDcs xs) x)] := by
  unfold etbOuts
  rw [List.foldl_append]
  simp only [List.foldl_cons, List.foldl_nil]
  show (List.foldl etbStep ([], []) xs).2 ++
      [voteContext (dcStep (List.foldl etbStep ([], []) xs).1 x)] = _
  rw [etbFold_fst]
  rfl

/-- One context value is emitted per record. -/
theorem etbOuts_length (ticks : List Fused) :
    (etbOuts ticks).length = ticks.length := by
  induction ticks using List.reverseRecOn with
  | nil => rfl
  | append_singleton xs x ih =>
    rw [etbOuts_snoc]
    simp [ih]

/-- The `t`-th ETB output is the majority vote over the population built from
the first `t + 1` records. -/
theorem etbOuts_char (ticks : List Fused) :
    etbOuts ticks
      = (List.range ticks.length).map
          (fun t => voteContext (etbDcs (ticks.take (t + 1)))) := by
  induction ticks using List.reverseRecOn with
  | nil => rfl
  | append_singleton xs x ih =>
    rw [etbOuts_snoc, ih,
      show (xs ++ [x]).length = xs.length + 1 by simp,
      List.range_succ, List.map_append]
    congr 1
    · refine List.map_congr_left ?_
      intro t ht
      have ht' : t < xs.length := List.mem_range.mp ht
      rw [List.take_append_of_le_length (by omega)]
    · simp only [List.map_cons, List.map_nil]
      rw [show (xs ++ [x]).take (xs.length + 1) = xs ++ [x] by
        rw [show xs.length + 1 = (xs ++ [x]).length by simp, List.take_length]]
      rw [etbDcs_snoc]

/-- The majority vote over the population of a processed prefix, expressed in
terms of creation indices and cumulative `danger - safe` sums. -/
theorem voteContext_char (pre : List Fused) :
    voteContext (etbDcs pre)
      = ((List.countP
            (fun j => decide (0 ≤ ((pre.map tickDelta).drop j).sum))
            (List.range' (pre.length - min pre.length DC_N)
              (min pre.length DC_N))) : ℚ) /
          ((min pre.length DC_N : ℕ) : ℚ) := by
  unfold voteContext voteState
  rw [etbDcs_char, ← List.countP_eq_length_filter, List.countP_map,
    List.length_map, List.length_range']
  rfl

end Etb

/-- Reading a mapped range at an in-bounds index. -/
theorem getD_map_range {α : Type} (f : ℕ → α) (d : α) {n t : ℕ} (h : t < n) :
    ((List.range n).map f).getD t d = f t := by
  have hlen : t < ((List.range n).map f).length := by simp [h]
  rw [List.getD_eq_getElem _ _ hlen]
  simp

/-! ### Characterisation of the WSN dDCA population and outputs -/

namespace Wsn

/-- The population component of the context assignment: pop the oldest cell
exactly when the population holds more than four cells. -/
theorem ddcaEmit_fst (dcs : List DDCell) :
    (ddcaEmit dcs).1 = if 4 < dcs.length then dcs.drop 1 else dcs := by
  unfold ddcaEmit
  split <;> rfl

/-- No context assignment happens while the population holds at most four
cells. -/
theorem ddcaEmit_snd_zero {dcs : List DDCell} (h : ¬ 4 < dcs.length) :
    (ddcaEmit dcs).2 = 0 := by
  unfold ddcaEmit
  rw [if_neg h]

/-- The cell update appends exactly one cell. -/
theorem ddcaCellStep_length (dcs : List DDCell) (s : Sig) :
    (ddcaCellStep dcs s).length = dcs.length + 1 := by
  simp [ddcaCellStep]

/-- The population component of the full dDCA fold agrees with the
population-only fold. -/
theorem ddcaFold_fst (sigs : List Sig) :
    ∀ st : List DDCell × List ℚ,
      (sigs.foldl ddcaStep st).1 = sigs.foldl ddcaPopStep st.1 := by
  induction sigs with
  | nil => intro st; rfl
  | cons s ss ih =>
    intro st
    rw [List.foldl_cons, List.foldl_cons, ih]
    rfl

/-- Unfolding one snoc step of the dDCA population fold. -/
theorem ddcaDcs_snoc (xs : List Sig) (x : Sig) :
    ddcaDcs (xs ++ [x]) = ddcaPopStep (ddcaDcs xs) x := by
  unfold ddcaDcs
  rw [ddcaFold_fst, ddcaFold_fst, List.foldl_append]
  simp only [List.foldl_cons, List.foldl_nil]

/-- Growing the dDCA population of `xs` by the record `x` yields the
creation-indexed cells of `xs ++ [x]` for the old window plus the fresh cell
of record `xs.length`. -/
theorem ddcaGrow_char (xs : List Sig) (x : Sig)
    (ih : ddcaDcs xs =
      (List.range' (xs.length - min xs.length 4) (min xs.length 4)).map
        (dcellAt xs)) :
    ddcaCellStep (ddcaDcs xs) x
      = (List.range' (xs.length - min xs.length 4) (min xs.length 4)).map
          (dcellAt (xs ++ [x])) ++ [dcellAt (xs ++ [x]) xs.length] := by
  rw [ddcaCellStep, ih, List.map_map]
  congr 1
  · refine List.map_congr_left ?_
    intro j hj
    have hj' : j < xs.length := by
      rcases List.mem_range'.mp hj with ⟨i, hi, rfl⟩
      have := Nat.min_le_left xs.length 4
      omega
    show (⟨(dcellAt xs j).antigen, (dcellAt xs j).csm + csmDelta x,
        (dcellAt xs j).k + kDelta x⟩ : DDCell) = dcellAt (xs ++ [x]) j
    unfold dcellAt
    have ha : (xs ++ [x]).getD j default = xs.getD j default :=
      List.getD_append _ _ _ _ hj'
    have hc : (((xs ++ [x]).map csmDelta).drop j).sum
        = ((xs.map csmDelta).drop j).sum + csmDelta x := by
      rw [List.map_append,
        List.drop_append_of_le_length (by simpa using le_of_lt hj'),
        List.sum_append]
      simp
    have hk : (((xs ++ [x]).map kDelta).drop j).sum
        = ((xs.map kDelta).drop j).sum + kDelta x := by
      rw [List.map_append,
        List.drop_append_of_le_length (by simpa using le_of_lt hj'),
        List.sum_append]
      simp
    rw [ha, hc, hk]
  · have ha : (xs ++ [x]).getD xs.length default = x := by
      rw [List.getD_append_right _ _ _ _ (le_refl _), Nat.sub_self]
      rfl
    have hc : (((xs ++ [x]).map csmDelta).drop xs.length).sum = csmDelta x := by
      rw [List.map_append,
        show xs.length = (xs.map csmDelta).length by simp,
        List.drop_left]
      simp
    have hk : (((xs ++ [x]).map kDelta).drop xs.length).sum = kDelta x := by
      rw [List.map_append,
        show xs.length = (xs.map kDelta).length by simp,
        List.drop_left]
      simp
    unfold dcellAt
    rw [ha, hc, hk]

/-- The dDCA population after any record list consists of the cells created
by the last `min n 4` records, each carrying the cumulative `(csm, k)` sums
from its creation record to the last record. -/
theorem ddcaDcs_char (sigs : List Sig) :
    ddcaDcs sigs
      = (List.range' (sigs.length - min sigs.length 4)
          (min sigs.length 4)).map (dcellAt sigs) := by
  induction sigs using List.reverseRecOn with
  | nil => simp [ddcaDcs]
  | append_singleton xs x ih =>
    rw [ddcaDcs_snoc, ddcaPopStep, ddcaEmit_fst, ddcaGrow_char xs x ih,
      window_step]
    have hl : (xs ++ [x]).length = xs.length + 1 := by simp
    rw [hl]

/-- The dDCA population size is `min n 4` after `n` records — the hard-coded
retirement threshold `4`, not the `DC_N` constant, bounds this population. -/
theorem ddcaDcs_length (sigs : List Sig) :
    (ddcaDcs sigs).length = min sigs.length 4 := by
  rw [ddcaDcs_char]
  simp

/-- The grown population, folded into a single creation-index window. -/
theorem ddcaGrow_range (xs : List Sig) (x : Sig) :
    ddcaCellStep (ddcaDcs xs) x
      = (List.range' (xs.length - min xs.length 4) (min xs.length 4 + 1)).map
          (dcellAt (xs ++ [x])) := by
  rw [ddcaGrow_char xs x (ddcaDcs_char xs), List.range'_concat, List.map_append]
  have hx : xs.length - min xs.length 4 + 1 * min xs.length 4 = xs.length := by
    have := Nat.min_le_left xs.length 4
    omega
  rw [hx]
  rfl

/-- The context the dDCA assigns right after the population update of record
`xs.length` is the claim-side `ddcaEmitVal` at that index. -/
theorem ddcaEmit_snd (xs : List Sig) (x : Sig) :
    (ddcaEmit (ddcaCellStep (ddcaDcs xs) x)).2
      = ddcaEmitVal (xs ++ [x]) xs.length := by
  rw [ddcaGrow_range]
  by_cases h4 : xs.length < 4
  · have hlen : ¬ 4 <
        ((List.range' (xs.length - min xs.length 4) (min xs.length 4 + 1)).map
          (dcellAt (xs ++ [x]))).length := by
      rw [List.length_map, List.length_range']
      omega
    rw [ddcaEmit_snd_zero hlen]
    unfold ddcaEmitVal
    rw [if_pos h4]
  · have hm : min xs.length 4 = 4 := by omega
    rw [hm, List.range'_succ, List.map_cons]
    unfold ddcaEmit
    rw [if_pos (by simp)]
    show (if 0 < (dcellAt (xs ++ [x]) (xs.length - 4)).k then (1 : ℚ) else 0)
        = ddcaEmitVal (xs ++ [x]) xs.length
    unfold ddcaEmitVal dcellAt
    rw [if_neg h4]
    have htake : ((xs ++ [x]).map kDelta).take (xs.length + 1)
        = (xs ++ [x]).map kDelta := by
      rw [show xs.length + 1 = ((xs ++ [x]).map kDelta).length by simp]
      exact List.take_length _
    rw [htake]

/-- One snoc step of the dDCA output list. -/
theorem ddcaOuts_snoc (xs : List Sig) (x : Sig) :
    ddcaOuts (xs ++ [x])
      = ddcaOuts xs ++ [(ddcaEmit (ddcaCellStep (ddcaDcs xs) x)).2] := by
  unfold ddcaOuts ddcaDcs
  rw [List.foldl_append]
  simp only [List.foldl_cons, List.foldl_nil]
  rfl

/-- One context value is emitted per dDCA record. -/
theorem ddcaOuts_length (sigs : List Sig) :
    (ddcaOuts sigs).length = sigs.length := by
  induction sigs using List.reverseRecOn with
  | nil => rfl
  | append_singleton xs x ih =>
    rw [ddcaOuts_snoc]
    simp [ih]

/-- The dDCA output list is `ddcaEmitVal` at every index. -/
theorem ddcaOuts_char (sigs : List Sig) :
    ddcaOuts sigs = (List.range sigs.length).map (ddcaEmitVal sigs) := by
  induction sigs using List.reverseRecOn with
  | nil => rfl
  | append_singleton xs x ih =>
    rw [ddcaOuts_snoc, ih,
      show (xs ++ [x]).length = xs.length + 1 by simp,
      List.range_succ, List.map_append]
    congr 1
    · refine List.map_congr_left ?_
      intro t ht
      have ht' : t < xs.length := List.mem_range.mp ht
      unfold ddcaEmitVal
      rw [List.map_append,
        List.take_append_of_le_length (by rw [List.length_map]; omega)]
    · simp only [List.map_cons, List.map_nil]
      rw [ddcaEmit_snd]

/-- All dDCA outputs of a stream of at most four records are zero. -/
theorem ddcaOuts_zero (sigs : List Sig) (h : sigs.length ≤ 4) :
    ddcaOuts sigs = List.replicate sigs.length 0 := by
  rw [ddcaOuts_char]
  refine List.eq_replicate_iff.2 ⟨by simp, ?_⟩
  intro b hb
  rcases List.mem_map.mp hb with ⟨t, ht, rfl⟩
  have ht' : t < sigs.length := List.mem_range.mp ht
  unfold ddcaEmitVal
  rw [if_pos (by omega)]

/-! ### The classic-DCA variant: population bound and warm-up outputs -/

/-- The population component of the classic-DCA context assignment. -/
theorem dcaEmit_fst (dcs : List MCell) :
    (dcaEmit dcs).1 = if 4 < dcs.length then dcs.drop 1 else dcs := by
  unfold dcaEmit
  split <;> rfl

/-- No classic-DCA context assignment happens while the population holds at
most four cells. -/
theorem dcaEmit_snd_zero {dcs : List MCell} (h : ¬ 4 < dcs.length) :
    (dcaEmit dcs).2 = 0 := by
  unfold dcaEmit
  rw [if_neg h]

/-- The classic-DCA cell update appends exactly one cell. -/
theorem dcaCellStep_length (dcs : List MCell) (s : Sig) :
    (dcaCellStep dcs s).length = dcs.length + 1 := by
  simp [dcaCellStep]

/-- The population component of the full classic-DCA fold agrees with the
population-only fold. -/
theorem dcaFold_fst (sigs : List Sig) :
    ∀ st : List MCell × List ℚ,
      (sigs.foldl dcaStep st).1 = sigs.foldl dcaPopStep st.1 := by
  induction sigs with
  | nil => intro st; rfl
  | cons s ss ih =>
    intro st
    rw [List.foldl_cons, List.foldl_cons, ih]
    rfl

/-- Unfolding one snoc step of the classic-DCA population fold. -/
theorem dcaDcs_snoc (xs : List Sig) (x : Sig) :
    dcaDcs (xs ++ [x]) = dcaPopStep (dcaDcs xs) x := by
  unfold dcaDcs
  rw [dcaFold_fst, dcaFold_fst, List.foldl_append]
  simp only [List.foldl_cons, List.foldl_nil]

/-- One snoc step of the classic-DCA output list. -/
theorem dcaOuts_snoc (xs : List Sig) (x : Sig) :
    dcaOuts (xs ++ [x])
      = dcaOuts xs ++ [(dcaEmit (dcaCellStep (dcaDcs xs) x)).2] := by
  unfold dcaOuts dcaDcs
  rw [List.foldl_append]
  simp only [List.foldl_cons, List.foldl_nil]
  rfl

/-- The classic-DCA population size is `min n 4` after `n` records. -/
theorem dcaDcs_length (sigs : List Sig) :
    (dcaDcs sigs).length = min sigs.length 4 := by
  induction sigs using List.reverseRecOn with
  | nil => rfl
  | append_singleton xs x ih =>
    rw [dcaDcs_snoc, dcaPopStep, dcaEmit_fst]
    by_cases h : 4 < (dcaCellStep (dcaDcs xs) x).length
    · rw [if_pos h, List.length_drop, dcaCellStep_length, ih]
      rw [dcaCellStep_length, ih] at h
      simp only [List.length_append, List.length_cons, List.length_nil]
      omega
    · rw [if_neg h, dcaCellStep_length, ih]
      rw [dcaCellStep_length, ih] at h
      simp only [List.length_append, List.length_cons, List.length_nil]
      omega

/-- All classic-DCA outputs of a stream of at most four records are zero. -/
theorem dcaOuts_zero (sigs : List Sig) (h : sigs.length ≤ 4) :
    dcaOuts sigs = List.replicate sigs.length 0 := by
  induction sigs using List.reverseRecOn with
  | nil => rfl
  | append_singleton xs x ih =>
    have hxs : xs.length ≤ 4 := by
      simp only [List.length_append, List.length_cons, List.length_nil] at h
      omega
    have hlen : ¬ 4 < (dcaCellStep (dcaDcs xs) x).length := by
      rw [dcaCellStep_length, dcaDcs_length]
      simp only [List.length_append, List.length_cons, List.length_nil] at h
      omega
    rw [dcaOuts_snoc, ih hxs, dcaEmit_snd_zero hlen,
      show (xs ++ [x]).length = xs.length + 1 by simp,
      List.replicate_succ']

/-- The dDCA population step keeps the population size within one of its
previous value: one cell is created, at most one retires. -/
theorem ddcaPopStep_length_bounds (dcs : List DDCell) (s : Sig) :
    dcs.length ≤ (ddcaPopStep dcs s).length
    ∧ (ddcaPopStep dcs s).length ≤ dcs.length + 1 := by
  unfold ddcaPopStep
  rw [ddcaEmit_fst]
  by_cases h : 4 < (ddcaCellStep dcs s).length
  · rw [if_pos h, List.length_drop, ddcaCellStep_length]
    omega
  · rw [if_neg h, ddcaCellStep_length]
    omega

end Wsn

/-! ### Sliding-window and population-step size facts -/

namespace Etb

/-- Growing the population adds exactly one cell. -/
theorem dcGrow_length (dcs : List DCell) (f : Fused) :
    (dcGrow dcs f).length = dcs.length + 1 := by
  simp [dcGrow]

/-- The ETB population step keeps the population size within one of its
previous value: one cell is created, at most one retires. -/
theorem dcStep_length_bounds (dcs : List DCell) (f : Fused) :
    dcs.length ≤ (dcStep dcs f).length
    ∧ (dcStep dcs f).length ≤ dcs.length + 1 := by
  unfold dcStep
  by_cases h : DC_N < (dcGrow dcs f).length
  · rw [if_pos h, List.length_drop, dcGrow_length]
    omega
  · rw [if_neg h, dcGrow_length]
    omega

/-- A just-pushed window of positive capacity is never empty. -/
theorem wpush_length_pos {N : Nat} (hN : 0 < N) (w : List ℚ) (v : ℚ) :
    0 < (wpush N w v).length := by
  unfold wpush
  by_cases h : N < (w ++ [v]).length
  · rw [if_pos h, List.length_drop]
    simp only [List.length_append, List.length_cons, List.length_nil] at h ⊢
    omega
  · rw [if_neg h]
    simp

/-- A just-updated population is never empty. -/
theorem dcStep_length_pos (dcs : List DCell) (f : Fused) :
    0 < (dcStep dcs f).length := by
  have hD : DC_N = 5 := rfl
  unfold dcStep
  by_cases h : DC_N < (dcGrow dcs f).length
  · rw [if_pos h, List.length_drop, dcGrow_length]
    rw [dcGrow_length] at h
    omega
  · rw [if_neg h, dcGrow_length]
    omega

/-- Pushing on a window distributes as a fold step. -/
theorem wpushAll_cons (N : Nat) (w : List ℚ) (v : ℚ) (rest : List ℚ) :
    wpushAll N w (v :: rest) = wpushAll N (wpush N w v) rest := rfl

/-- After any sequence of pushes into a window whose length is within the
capacity, the window holds exactly the most recent `N` values (all of them
while fewer than `N` have been seen), in push order. -/
theorem wpushAll_drop (N : Nat) (vs : List ℚ) :
    ∀ w : List ℚ, w.length ≤ N →
      wpushAll N w vs = (w ++ vs).drop ((w ++ vs).length - N) := by
  induction vs with
  | nil =>
    intro w hw
    unfold wpushAll
    rw [List.foldl_nil, List.append_nil, show w.length - N = 0 by omega,
      List.drop_zero]
  | cons v rest ih =>
    intro w hw
    rw [wpushAll_cons]
    by_cases hfull : w.length = N
    · have hpush : wpush N w v = (w ++ [v]).drop 1 := by
        unfold wpush
        rw [if_pos (by
          simp only [List.length_append, List.length_cons, List.length_nil]
          omega)]
      have hlen : ((w ++ [v]).drop 1).length ≤ N := by
        rw [List.length_drop]
        simp only [List.length_append, List.length_cons, List.length_nil]
        omega
      rw [hpush, ih _ hlen]
      have hidx1 : ((w ++ [v]).drop 1 ++ rest).length - N = rest.length := by
        simp only [List.length_append, List.length_drop, List.length_cons,
          List.length_nil]
        omega
      have hidx2 : (w ++ v :: rest).length - N = 1 + rest.length := by
        simp only [List.length_append, List.length_cons, List.length_nil]
        omega
      rw [hidx1, hidx2, show w ++ v :: rest = (w ++ [v]) ++ rest by simp]
      have hsplit : ((w ++ [v]) ++ rest).drop 1 = (w ++ [v]).drop 1 ++ rest :=
        List.drop_append_of_le_length (by simp)
      rw [← hsplit, List.drop_drop]
    · have hpush : wpush N w v = w ++ [v] := by
        unfold wpush
        rw [if_neg (by
          simp only [List.length_append, List.length_cons, List.length_nil]
          omega)]
      have hlen : (w ++ [v]).length ≤ N := by
        simp only [List.length_append, List.length_cons, List.length_nil]
        omega
      rw [hpush, ih _ hlen, show (w ++ [v]) ++ rest = w ++ v :: rest by simp]

/-- The window built from scratch holds the last `N` pushed values. -/
theorem wpushAll_nil_drop (N : Nat) (vs : List ℚ) :
    wpushAll N [] vs = vs.drop (vs.length - N) := by
  have h := wpushAll_drop N vs [] (by simp)
  simpa using h

/-- The window length is `min M N` after `M` pushes from scratch. -/
theorem wpushAll_nil_length (N : Nat) (vs : List ℚ) :
    (wpushAll N [] vs).length = min vs.length N := by
  rw [wpushAll_nil_drop, List.length_drop]
  omega

end Etb

/-! ### Claim theorems -/

/-- C1: in the majority-vote variant, every emitted context equals the number
of live cells whose cumulative `danger - safe` accumulator is nonnegative
(seeded at the cell's creation record and incremented by every later
record's `danger - safe`) divided by the current population size; feeding six
records whose fused signals are `danger = 0`, `safe = 0` yields context `1`
at tick 6. -/
theorem claim_c1 :
    (∀ (ticks : List Etb.Fused) (t : Nat), t < ticks.length →
      (Etb.etbOuts ticks).getD t 0 = Etb.specMajorityContext ticks t)
    ∧ (Etb.etbOuts Etb.scenarioA).getD 5 0 = 1 := by
  constructor
  · intro ticks t ht
    rw [Etb.etbOuts_char, getD_map_range _ _ ht, Etb.voteContext_char]
    unfold Etb.specMajorityContext
    have hlen : (ticks.take (t + 1)).length = t + 1 := by
      rw [List.length_take]
      omega
    rw [hlen, List.map_take]
  · norm_num [Etb.etbOuts, Etb.etbStep, Etb.dcStep, Etb.dcGrow,
      Etb.voteContext, Etb.voteState, Etb.tickDelta, Etb.scenarioA, Etb.DC_N,
      List.foldl, List.filter]

/-- Witness for C1: the general majority-vote identity applied to the
concrete Scenario-A stream at tick 3. -/
theorem claim_c1_witness :
    (Etb.etbOuts Etb.scenarioA).getD 2 0
      = Etb.specMajorityContext Etb.scenarioA 2 :=
  claim_c1.1 Etb.scenarioA 2 (by norm_num [Etb.scenarioA])

/-- C2: in the dDCA variant, once cells retire (output index `t ≥ 4`) the
emitted context is `1` exactly when the retiring cell's `k`, accumulated as
`danger + 2·pamp - 2·safe` over its five live records `t-4, …, t` inclusive,
is positive, else `0`; five records with `danger = 1`, `safe = 0`,
`pamp = 0` give `k = 5 > 0` at the fifth output, so `context[4] = 1`. -/
theorem claim_c2 :
    (∀ (sigs : List Wsn.Sig) (t : Nat), 4 ≤ t → t < sigs.length →
      (Wsn.ddcaOuts sigs).getD t 0
        = if 0 < (((sigs.map Wsn.kDelta).take (t + 1)).drop (t - 4)).sum
          then 1 else 0)
    ∧ (Wsn.ddcaOuts Wsn.scenarioB).getD 4 0 = 1
    ∧ ((Wsn.scenarioB.map Wsn.kDelta).take 5).sum = 5 := by
  refine ⟨?_, ?_, ?_⟩
  · intro sigs t ht4 ht
    rw [Wsn.ddcaOuts_char, getD_map_range _ _ ht]
    unfold Wsn.ddcaEmitVal
    rw [if_neg (by omega)]
  · norm_num [Wsn.ddcaOuts, Wsn.ddcaStep, Wsn.ddcaEmit, Wsn.ddcaCellStep,
      Wsn.csmDelta, Wsn.kDelta, Wsn.scenarioB, List.foldl]
  · norm_num [Wsn.scenarioB, Wsn.kDelta]

/-- Witness for C2: the retirement rule applied to the concrete Scenario-B
stream at its fifth output. -/
theorem claim_c2_witness :
    (Wsn.ddcaOuts Wsn.scenarioB).getD 4 0
      = if 0 < (((Wsn.scenarioB.map Wsn.kDelta).take (4 + 1)).drop (4 - 4)).sum
        then 1 else 0 :=
  claim_c2.1 Wsn.scenarioB 4 (by norm_num) (by norm_num [Wsn.scenarioB])

/-- C3 counterexample: the WSN dDCA population manager retires on the
hard-coded threshold `4`, so after six records (more than `DC_N = 5`) its
population size is `4`, not `DC_N`. -/
theorem claim_c3_cex :
    Wsn.DC_N < Wsn.sixSigs.length
    ∧ (Wsn.ddcaDcs Wsn.sixSigs).length ≠ Wsn.DC_N := by
  constructor
  · norm_num [Wsn.sixSigs, Wsn.DC_N]
  · rw [Wsn.ddcaDcs_length]
    norm_num [Wsn.sixSigs, Wsn.DC_N]

/-- C3 (amended): each bounded population manager enforces its own pop
threshold as the capacity — `DC_N = 5` in the ETB variant, the hard-coded
`4` in the WSN variant (whose `DC_N` constant is unused).  In both, the size
after `M` records is `min M capacity` (hence within `[0, capacity]` and
exactly the capacity once `M` exceeds it), and each record step creates
exactly one cell and retires at most one. -/
theorem claim_c3_thm :
    (∀ ticks : List Etb.Fused,
        (Etb.etbDcs ticks).length = min ticks.length Etb.DC_N)
    ∧ (∀ ticks : List Etb.Fused, Etb.DC_N < ticks.length →
        (Etb.etbDcs ticks).length = Etb.DC_N)
    ∧ (∀ (dcs : List Etb.DCell) (f : Etb.Fused),
        dcs.length ≤ (Etb.dcStep dcs f).length
        ∧ (Etb.dcStep dcs f).length ≤ dcs.length + 1)
    ∧ (∀ sigs : List Wsn.Sig, (Wsn.ddcaDcs sigs).length = min sigs.length 4)
    ∧ (∀ sigs : List Wsn.Sig, 4 < sigs.length →
        (Wsn.ddcaDcs sigs).length = 4)
    ∧ (∀ (dcs : List Wsn.DDCell) (s : Wsn.Sig),
        dcs.length ≤ (Wsn.ddcaPopStep dcs s).length
        ∧ (Wsn.ddcaPopStep dcs s).length ≤ dcs.length + 1) := by
  refine ⟨Etb.etbDcs_length, ?_, Etb.dcStep_length_bounds,
    Wsn.ddcaDcs_length, ?_, Wsn.ddcaPopStep_length_bounds⟩
  · intro ticks h
    rw [Etb.etbDcs_length]
    simp only [Etb.DC_N] at h ⊢
    omega
  · intro sigs h
    rw [Wsn.ddcaDcs_length]
    omega

/-- Witness for C3: the ETB population holds exactly `DC_N` cells after the
six Scenario-A records. -/
theorem claim_c3_witness :
    (Etb.etbDcs Etb.scenarioA).length = Etb.DC_N :=
  claim_c3_thm.2.1 Etb.scenarioA (by norm_num [Etb.scenarioA, Etb.DC_N])

/-- C4 counterexample: a first record whose reset indicator is `1` yields
`pamp = 1 ≠ 0`, so the first record does not always produce `pamp = 0`. -/
theorem claim_c4_cex :
    ¬ (Wsn.safeOf Wsn.recRst1 none = 0 ∧ Wsn.pampOf Wsn.recRst1 none = 0) := by
  intro h
  have h2 := h.2
  norm_num [Wsn.pampOf, Wsn.pamp2Of, Wsn.pamp1_w, Wsn.recRst1] at h2

/-- C4 (amended): the first record of a stream always produces `safe = 0`
and a zero sequence-gap PAMP component, but its overall PAMP equals
`x_rst * pamp1_w`, which is zero only when the reset indicator is zero. -/
theorem claim_c4_thm :
    ∀ r : Wsn.Rec,
      Wsn.safeOf r none = 0 ∧ Wsn.pamp2Of r none = 0
      ∧ Wsn.pampOf r none = r.x_rst * Wsn.pamp1_w := by
  intro r
  refine ⟨rfl, rfl, ?_⟩
  simp [Wsn.pampOf, Wsn.pamp2Of]

/-- C5: evaluating the code's `get_delta` against the claimed relative
delta.  At arguments `(0, 1)` with ambient air temperatures `5` and `2` the
code returns `3` (the unscaled global air-temperature difference) while the
claimed relative delta of `(0, 1)` is `0`; changing only the ambient air
temperature changes the result, so it does not depend only on the two
arguments. -/
theorem claim_c5_code_eval :
    Wsn.get_delta 0 1 5 2 = 3 ∧ Wsn.relative_delta 0 1 = 0
    ∧ Wsn.get_delta 0 1 5 2 ≠ Wsn.get_delta 0 1 7 2 := by
  refine ⟨?_, ?_, ?_⟩
  · unfold Wsn.get_delta
    rw [if_neg (by norm_num), show (5 : ℚ) - 2 = 3 by norm_num,
      abs_of_pos (by norm_num : (0 : ℚ) < 3)]
  · unfold Wsn.relative_delta
    rw [if_neg (by norm_num), if_pos rfl]
  · unfold Wsn.get_delta
    rw [if_neg (by norm_num), if_neg (by norm_num),
      show (5 : ℚ) - 2 = 3 by norm_num, show (7 : ℚ) - 2 = 5 by norm_num,
      abs_of_pos (by norm_num : (0 : ℚ) < 3),
      abs_of_pos (by norm_num : (0 : ℚ) < 5)]
    norm_num

/-- C6 counterexample: a record pair whose air temperature jumps by `8`
drives the delta-based safe value to `-7`, outside `[0, 1]` — the code never
clamps it. -/
theorem claim_c6_cex :
    Wsn.safeOf Wsn.recJump (some Wsn.recZero) < 0 := by
  norm_num [Wsn.safeOf, Wsn.get_delta, Wsn.safe1_w, Wsn.safe2_w, Wsn.safe3_w,
    Wsn.safe4_w, Wsn.recJump, Wsn.recZero]

/-- C6 (amended): after the first record the emitted safe value equals one
minus the weighted sum of the four per-quantity `get_delta` values divided
by the sum of the absolute safe weights (all weights are `1`); the result is
not clamped and can leave `[0, 1]`, as the `recJump` pair shows. -/
theorem claim_c6_thm :
    (∀ r p : Wsn.Rec,
      Wsn.safeOf r (some p)
        = 1 - (Wsn.get_delta r.t_air p.t_air r.t_air p.t_air
             + Wsn.get_delta r.t_soil p.t_soil r.t_air p.t_air
             + Wsn.get_delta r.h_air p.h_air r.t_air p.t_air
             + Wsn.get_delta r.h_soil p.h_soil r.t_air p.t_air) / 4)
    ∧ Wsn.safeOf Wsn.recJump (some Wsn.recZero) < 0 := by
  constructor
  · intro r p
    show (1 : ℚ) - (Wsn.get_delta r.t_air p.t_air r.t_air p.t_air * Wsn.safe1_w
         + Wsn.get_delta r.t_soil p.t_soil r.t_air p.t_air * Wsn.safe2_w
         + Wsn.get_delta r.h_air p.h_air r.t_air p.t_air * Wsn.safe3_w
         + Wsn.get_delta r.h_soil p.h_soil r.t_air p.t_air * Wsn.safe4_w)
        / (|Wsn.safe1_w| + |Wsn.safe2_w| + |Wsn.safe3_w| + |Wsn.safe4_w|) = _
    norm_num [Wsn.safe1_w, Wsn.safe2_w, Wsn.safe3_w, Wsn.safe4_w]
  · norm_num [Wsn.safeOf, Wsn.get_delta, Wsn.safe1_w, Wsn.safe2_w,
      Wsn.safe3_w, Wsn.safe4_w, Wsn.recJump, Wsn.recZero]

/-- C7 counterexample: the Scenario-B stream has five records — fewer than
`DC_N + 1 = 6` — yet its fifth output is `1`, because retirement already
starts once the population holds five cells (threshold `4`), at the fifth
record. -/
theorem claim_c7_cex :
    Wsn.scenarioB.length < Wsn.DC_N + 1
    ∧ (Wsn.ddcaOuts Wsn.scenarioB).getD 4 0 ≠ 0 := by
  constructor
  · norm_num [Wsn.scenarioB, Wsn.DC_N]
  · norm_num [Wsn.ddcaOuts, Wsn.ddcaStep, Wsn.ddcaEmit, Wsn.ddcaCellStep,
      Wsn.csmDelta, Wsn.kDelta, Wsn.scenarioB, List.foldl]

/-- C7 (amended): in both retirement-based variants the pre-warm-up default
`0` is emitted for every record of a stream of at most `4` records (the
hard-coded pop threshold), not `DC_N`; the first retirement happens at the
fifth record. -/
theorem claim_c7_thm :
    ∀ sigs : List Wsn.Sig, sigs.length ≤ 4 →
      Wsn.ddcaOuts sigs = List.replicate sigs.length 0
      ∧ Wsn.dcaOuts sigs = List.replicate sigs.length 0 := by
  intro sigs h
  exact ⟨Wsn.ddcaOuts_zero sigs h, Wsn.dcaOuts_zero sigs h⟩

/-- Witness for C7: both variants emit only zeros on a concrete two-record
stream. -/
theorem claim_c7_witness :
    Wsn.ddcaOuts [⟨"A", 0, 1, 0⟩, ⟨"A", 0, 0, 1⟩]
        = List.replicate ([⟨"A", 0, 1, 0⟩, ⟨"A", 0, 0, 1⟩] : List Wsn.Sig).length 0
      ∧ Wsn.dcaOuts [⟨"A", 0, 1, 0⟩, ⟨"A", 0, 0, 1⟩]
        = List.replicate ([⟨"A", 0, 1, 0⟩, ⟨"A", 0, 0, 1⟩] : List Wsn.Sig).length 0 :=
  claim_c7_thm [⟨"A", 0, 1, 0⟩, ⟨"A", 0, 0, 1⟩] (by norm_num)

/-- C8: in the additive-capped variant the emitted danger is exactly
`min 1 (sum of the eight fault indicators)` (all weights are `1` in this
script), and whenever the indicator sum is at least `1` the danger is
exactly `1`. -/
theorem claim_c8 :
    (∀ a b c d e f g h : ℚ,
      Etb.danger_etb a b c d e f g h = min 1 (a + b + c + d + e + f + g + h))
    ∧ (∀ a b c d e f g h : ℚ, 1 ≤ a + b + c + d + e + f + g + h →
      Etb.danger_etb a b c d e f g h = 1) := by
  constructor
  · intro a b c d e f g h
    rfl
  · intro a b c d e f g h hsum
    unfold Etb.danger_etb
    exact min_eq_left hsum

/-- Witness for C8: two indicators at `1` saturate the danger output. -/
theorem claim_c8_witness : Etb.danger_etb 1 1 0 0 0 0 0 0 = 1 :=
  claim_c8.2 1 1 0 0 0 0 0 0 (by norm_num)

/-- C9: a sliding window of capacity `N` holds `min M N` values after `M`
pushes, always the most recent `N` in push order; a push on a full window
drops the oldest value first (strict FIFO); after more than `N` pushes the
length is exactly `N`. -/
theorem claim_c9 :
    (∀ (N : Nat) (vs : List ℚ),
        (Etb.wpushAll N [] vs).length = min vs.length N)
    ∧ (∀ (N : Nat) (vs : List ℚ),
        Etb.wpushAll N [] vs = vs.drop (vs.length - N))
    ∧ (∀ (N : Nat) (w : List ℚ) (v : ℚ), w.length = N → 0 < N →
        Etb.wpush N w v = w.drop 1 ++ [v])
    ∧ (∀ (N : Nat) (vs : List ℚ), N < vs.length →
        (Etb.wpushAll N [] vs).length = N) := by
  refine ⟨Etb.wpushAll_nil_length, Etb.wpushAll_nil_drop, ?_, ?_⟩
  · intro N w v hw hN
    unfold Etb.wpush
    rw [if_pos (by
      simp only [List.length_append, List.length_cons, List.length_nil]
      omega)]
    exact List.drop_append_of_le_length (by omega)
  · intro N vs h
    rw [Etb.wpushAll_nil_length]
    omega

/-- Witness for C9: pushing three values into a window of capacity two keeps
exactly two values. -/
theorem claim_c9_witness :
    (Etb.wpushAll 2 [] [(1 : ℚ), 2, 3]).length = 2 :=
  claim_c9.2.2.2 2 [1, 2, 3] (by norm_num)

/-- C10: every divisor in the per-record pipeline is nonzero — a
just-pushed window (capacity `STDDEV_N = 10`) and a just-updated population
are never empty, so the window mean and variance divisions and the
majority-vote division by `len(dcs)` are safe. -/
theorem claim_c10 :
    (∀ (w : List ℚ) (v : ℚ), 0 < (Etb.wpush Etb.STDDEV_N w v).length)
    ∧ (∀ (w : List ℚ) (v : ℚ),
        ((Etb.wpush Etb.STDDEV_N w v).length : ℚ) ≠ 0)
    ∧ (∀ (dcs : List Etb.DCell) (f : Etb.Fused),
        0 < (Etb.dcStep dcs f).length)
    ∧ (∀ (dcs : List Etb.DCell) (f : Etb.Fused),
        ((Etb.dcStep dcs f).length : ℚ) ≠ 0) := by
  refine ⟨Etb.wpush_length_pos (by norm_num [Etb.STDDEV_N]), ?_,
    Etb.dcStep_length_pos, ?_⟩
  · intro w v
    have h := Etb.wpush_length_pos (by norm_num [Etb.STDDEV_N] : 0 < Etb.STDDEV_N) w v
    exact_mod_cast Nat.pos_iff_ne_zero.mp h
  · intro dcs f
    have h := Etb.dcStep_length_pos dcs f
    exact_mod_cast Nat.pos_iff_ne_zero.mp h

end RPiSink
